import Mathlib

set_option maxHeartbeats 1000000

/- Shallow embedding of the multi-client LoRA training orchestrator of the
   personalized-llms-colm repository (src/main.py and src/optim/lora.py).
   PyTorch float tensors are modelled as rationals; the scalar values that the
   orchestrator merely transports (per-microstep losses and gradients, which
   come out of the opaque network forward/backward pass) are supplied by
   oracle functions. -/

/-- Run configuration consumed by `train_lora` (the slice of the argparse
namespace `extra_args` that the orchestrator reads): client count, total
iterations, gradient-accumulation steps, trust-aggregation frequency
(`trust_freq`), pretraining-round threshold (`pretraining_rounds`),
evaluation frequency (`eval_freq`), gradient-clip bound (`grad_clip`),
whether a learning-rate scheduler was constructed (src/main.py stores `None`
for the choice `none`), and whether this process is the master process of
the distributed backend. -/
structure TrainConfig where
  numClients : ℕ
  iterations : ℕ
  accSteps : ℕ
  trustFreq : ℕ
  pretrainingRounds : ℕ
  evalFreq : ℕ
  gradClip : ℚ
  hasScheduler : Bool
  isMaster : Bool
deriving DecidableEq

/-- One client's gradient-accumulation loop (src/optim/lora.py lines 64-73):
each microstep samples a fresh batch, and its loss is divided by `acc_steps`
before `loss.backward()`, so the gradient of microstep `j` enters the
accumulated gradient scaled by `1 / acc_steps`.  `g j` denotes the gradient
of the raw (unscaled) loss of the batch sampled at microstep `j`. -/
def microLoopGrad (K : ℕ) (g : ℕ → ℚ) : ℚ :=
  (List.range K).foldl (fun acc j => acc + g j / (K : ℚ)) 0

/-- Mean of a list of rationals. -/
def listMean (l : List ℚ) : ℚ := l.sum / (l.length : ℚ)

/-- torch.nn.utils.clip_grad_norm_ with max-norm `c` applied to a gradient
whose norm is `|g|`: when the norm exceeds `c` the gradient is rescaled by
`c / |g|`, otherwise it is left unchanged. -/
def clipGradNorm (c : ℚ) (g : ℚ) : ℚ := if |g| ≤ c then g else c / |g| * g

/-- The clipping stage of a client's local step (src/optim/lora.py lines
75-76): `if extra_args.grad_clip != 0.0: torch.nn.utils.clip_grad_norm_(
model.parameters(), extra_args.grad_clip)`. -/
def clipStage (c : ℚ) (g : ℚ) : ℚ := if c ≠ 0 then clipGradNorm c g else g

/-- The gradient reaching `opt.step()` for one client in one round
(src/optim/lora.py lines 64-77): the accumulated gradient of the
gradient-accumulation loop, clipped when a nonzero bound is configured. -/
def clientGrad (cfg : TrainConfig) (g : ℕ → ℚ) : ℚ :=
  clipStage cfg.gradClip (microLoopGrad cfg.accSteps g)

/-- Modelled from the spec: the Trust Aggregator `aggregate` is imported in
src/optim/lora.py from `optim.strategies`, a file that is not among the
available sources.  Per the spec, the aggregator converts a row of
non-negative trust scores over source clients (one score per source client,
the target's own self-score included) into mixing weights by normalizing the
row to sum to 1. -/
def trustRow (scores : List ℚ) : List ℚ := scores.map (fun s => s / scores.sum)

/-- Modelled from the spec: a target client's new value for one parameter is
the weighted combination of all clients' current values of that parameter,
using the target's normalized trust row. -/
def aggregateParams (weights : List ℚ) (params : List ℚ) : ℚ :=
  (List.zipWith (fun w p => w * p) weights params).sum

/-- Every entry of the list is non-negative. -/
def listNonneg (l : List ℚ) : Prop := ∀ x ∈ l, 0 ≤ x

/-- PyTorch module mode, toggled by `model.train()` and `model.eval()`. -/
inductive Mode where
  | train : Mode
  | inference : Mode
deriving DecidableEq

/-- The evaluation block of `train_lora` (src/optim/lora.py lines 96-130):
`model.eval()` switches the model into inference mode, the Evaluator runs
(modelled as a fallible call, since `eval` and the metric bookkeeping may
raise), and `model.train()` runs only as the last statement of the block.
The source wraps none of this in try/finally, so an exception propagates
before `model.train()` is reached.  The result is the model mode on exit
together with the propagated evaluation result. -/
def evalBlockMode (evalCall : Except Unit (ℚ × ℚ × ℚ)) :
    Mode × Except Unit (ℚ × ℚ × ℚ) :=
  match evalCall with
  | Except.error e => (Mode.inference, Except.error e)
  | Except.ok metrics => (Mode.train, Except.ok metrics)

/-- The filesystem facts consulted by `main` around the checkpoint path
(src/main.py lines 118-124): whether the derived checkpoint directory
exists, whether `summary.json` inside it is a file, and the current content
of that file when present. -/
structure CkptState where
  dirExists : Bool
  summaryIsFile : Bool
  summaryContent : Option String
deriving DecidableEq

/-- Outcome of a run of `main` as far as the checkpoint/summary logic is
concerned: the process exit status, how many training rounds were executed,
and the content of `summary.json` after the run. -/
structure RunOutcome where
  exitCode : ℕ
  rounds : ℕ
  summaryAfter : Option String
deriving DecidableEq

/-- src/main.py lines 118-144: if the checkpoint directory does not exist it
is created and training proceeds; otherwise, if `summary.json` already
exists inside it, the run prints a notice and calls `sys.exit(0)` before any
training; otherwise training proceeds.  After training, the summary is
written to `summary.json`.  `iterations` stands for the training rounds the
run would perform, `trainedSummary` for the summary it would write. -/
def mainRun (fs : CkptState) (iterations : ℕ) (trainedSummary : String) :
    RunOutcome :=
  if fs.dirExists = false then
    { exitCode := 0, rounds := iterations, summaryAfter := some trainedSummary }
  else if fs.summaryIsFile = true then
    { exitCode := 0, rounds := 0, summaryAfter := fs.summaryContent }
  else
    { exitCode := 0, rounds := iterations, summaryAfter := some trainedSummary }

/-- src/main.py lines 95-106: scheduler construction for one client.  The
choice `none` stores `None` as the client's scheduler; `cos` and `linear`
construct a OneCycleLR (modelled as `some ()`); any other choice raises
NotImplementedError. -/
def makeScheduler (choice : String) : Except String (Option Unit) :=
  if choice ≠ "none" then
    if choice = "cos" ∨ choice = "linear" then Except.ok (some ())
    else Except.error ("Unknown scheduler type: " ++ choice)
  else Except.ok none

/- ----------------------------------------------------------------------
   The training loop of `train_lora` (src/optim/lora.py lines 59-137).
   ---------------------------------------------------------------------- -/

/-- The mutable orchestrator state threaded through the `while` loop of
`train_lora`: per-client iteration counters `itr`, per-client microstep
counters `substep`, the value of the Python local variable `loss` (the last
microstep loss computed, already divided by `acc_steps`; 0 before its first
assignment), the per-client `stats['train_loss']` series, and the list of
global-round indices at which `aggregate` was invoked (the aggregation
events; the parameter mutation done by `aggregate` itself is external to
this state).  The validation metric series follow exactly the same append
discipline as `trainLossStats` but carry values produced by the external
Evaluator, so they are not tracked separately. -/
structure LoopState where
  itr : List ℕ
  substep : List ℕ
  lossVar : ℚ
  trainLossStats : List (List ℚ)
  aggRounds : List ℕ
deriving DecidableEq

/-- The per-batch loss oracle: `L i r j` is the raw value of
`outputs['loss']` observed at client `i`, round `r`, microstep `j`. -/
abbrev LossOracle := ℕ → ℕ → ℕ → ℚ

/-- One client's local step in one round (src/optim/lora.py lines 60-79):
the gradient-accumulation loop advances `substep[i]` by `acc_steps` and
leaves the Python variable `loss` holding the last microstep's loss divided
by `acc_steps`; then gradients are clipped, `opt.step()` runs, and
`scheduler.step()` runs — unguarded, so when main stored `None` as the
scheduler this raises (modelled as `Except.error (i, itr[i])`); finally
`itr[i]` is incremented. -/
def clientStepE (cfg : TrainConfig) (L : LossOracle) (i : ℕ) (s : LoopState) :
    Except (ℕ × ℕ) LoopState :=
  let r := s.itr.getD i 0
  let s1 : LoopState :=
    { s with
      substep := s.substep.set i (s.substep.getD i 0 + cfg.accSteps),
      lossVar := if cfg.accSteps = 0 then s.lossVar
                 else L i r (cfg.accSteps - 1) / (cfg.accSteps : ℚ) }
  if cfg.hasScheduler = true then
    Except.ok { s1 with itr := s1.itr.set i (r + 1) }
  else
    Except.error (i, r)

/-- `for i in range(num_clients)` over the client local steps, stopping at
the first raised exception. -/
def runClients (cfg : TrainConfig) (L : LossOracle) :
    List ℕ → LoopState → Except (ℕ × ℕ) LoopState
  | [], s => Except.ok s
  | i :: rest, s =>
    match clientStepE cfg L i s with
    | Except.error e => Except.error e
    | Except.ok s1 => runClients cfg L rest s1

/-- The aggregation trigger (src/optim/lora.py lines 82-83): after all
clients' local steps, if `itr[-1] % trust_freq == 0 and itr[-1] >=
pretraining_rounds - 1`, `aggregate` is invoked over all clients; the event
is recorded by its global round index `itr[-1]`. -/
def aggCheck (cfg : TrainConfig) (s : LoopState) : LoopState :=
  if s.itr.getLastD 0 % cfg.trustFreq = 0 ∧
      cfg.pretrainingRounds - 1 ≤ s.itr.getLastD 0 then
    { s with aggRounds := s.aggRounds ++ [s.itr.getLastD 0] }
  else s

/-- One client's evaluation check (src/optim/lora.py lines 88-130): after
`opt.zero_grad`, if `itr[i] % eval_freq == 0 or itr[i] == iterations` and
this is the master process, the recorded train loss is
`loss.detach().cpu().item() * acc_steps` — computed from the Python `loss`
variable, i.e. from the *last* client's final microstep — and is appended to
`stats['train_loss'][i]` (the external Evaluator's metrics are appended to
the validation series in the same way). -/
def evalClient (cfg : TrainConfig) (i : ℕ) (s : LoopState) : LoopState :=
  if s.itr.getD i 0 % cfg.evalFreq = 0 ∨ s.itr.getD i 0 = cfg.iterations then
    if cfg.isMaster = true then
      { s with trainLossStats :=
          (s.trainLossStats.set i
            ((s.trainLossStats.getD i []) ++ [s.lossVar * (cfg.accSteps : ℚ)])) }
    else s
  else s

/-- `for i in range(num_clients)` over the evaluation checks. -/
def runEval (cfg : TrainConfig) : List ℕ → LoopState → LoopState
  | [], s => s
  | i :: rest, s => runEval cfg rest (evalClient cfg i s)

/-- One full round of the `while` loop body (src/optim/lora.py lines
59-135): all client local steps, then the aggregation trigger, then the
evaluation sweep (the checkpointing block at lines 131-134 has an empty
body and is omitted). -/
def roundStepE (cfg : TrainConfig) (L : LossOracle) (s : LoopState) :
    Except (ℕ × ℕ) LoopState :=
  match runClients cfg L (List.range cfg.numClients) s with
  | Except.error e => Except.error e
  | Except.ok s1 => Except.ok (runEval cfg (List.range cfg.numClients) (aggCheck cfg s1))

/-- `k` successive rounds of the loop body. -/
def roundsIterE (cfg : TrainConfig) (L : LossOracle) :
    ℕ → LoopState → Except (ℕ × ℕ) LoopState
  | 0, s => Except.ok s
  | k + 1, s =>
    match roundStepE cfg L s with
    | Except.error e => Except.error e
    | Except.ok s1 => roundsIterE cfg L k s1

/-- The `while itr[-1] < iterations` loop, with an explicit bound on the
number of guard evaluations (`Except.ok none` means the bound was exhausted
with the loop still running). -/
def trainLoopFuel (cfg : TrainConfig) (L : LossOracle) :
    ℕ → LoopState → Except (ℕ × ℕ) (Option LoopState)
  | 0, _ => Except.ok none
  | fuel + 1, s =>
    if s.itr.getLastD 0 < cfg.iterations then
      match roundStepE cfg L s with
      | Except.error e => Except.error e
      | Except.ok s1 => trainLoopFuel cfg L fuel s1
    else Except.ok (some s)

/-- The initial orchestrator state (src/optim/lora.py lines 29-33):
`itr, substep = [0]*num_clients, [0]*num_clients` and empty stats series. -/
def initState (cfg : TrainConfig) : LoopState :=
  { itr := List.replicate cfg.numClients 0,
    substep := List.replicate cfg.numClients 0,
    lossVar := 0,
    trainLossStats := List.replicate cfg.numClients [],
    aggRounds := [] }

/-- `train_lora` (src/optim/lora.py lines 20-137), from the start of the
`while` loop: the loop needs exactly `iterations` rounds plus one final
guard evaluation, so that much fuel is provided. -/
def train_lora (cfg : TrainConfig) (L : LossOracle) :
    Except (ℕ × ℕ) (Option LoopState) :=
  trainLoopFuel cfg L (cfg.iterations + 1) (initState cfg)

/- Closed forms for the loop state after `k` completed rounds. -/

/-- The global rounds `r ≤ k` at which the aggregation trigger fires. -/
def aggRoundsUpTo (cfg : TrainConfig) (k : ℕ) : List ℕ :=
  (List.range k).filterMap (fun j =>
    if (j + 1) % cfg.trustFreq = 0 ∧ cfg.pretrainingRounds - 1 ≤ j + 1 then
      some (j + 1)
    else none)

/-- The value the Python `loss` variable holds after the client sweep of
round `j` (0-indexed): the last client's final-microstep loss divided by
`acc_steps`. -/
def lastLoss (cfg : TrainConfig) (L : LossOracle) (j : ℕ) : ℚ :=
  L (cfg.numClients - 1) j (cfg.accSteps - 1) / (cfg.accSteps : ℚ)

/-- Whether the evaluation branch records metrics at global round `r`. -/
abbrev isEvalRound (cfg : TrainConfig) (r : ℕ) : Prop :=
  (r % cfg.evalFreq = 0 ∨ r = cfg.iterations) ∧ cfg.isMaster = true

/-- What one evaluation sweep appends to each client's train-loss series at
global round `r` when the `loss` variable holds `v`. -/
def evalAppend (cfg : TrainConfig) (r : ℕ) (v : ℚ) : List ℚ :=
  if isEvalRound cfg r then [v * (cfg.accSteps : ℚ)] else []

/-- Each client's `stats['train_loss']` series after `k` completed rounds. -/
def trainLossUpTo (cfg : TrainConfig) (L : LossOracle) (k : ℕ) : List ℚ :=
  (List.range k).filterMap (fun j =>
    if isEvalRound cfg (j + 1) then some (lastLoss cfg L j * (cfg.accSteps : ℚ))
    else none)

/-- The orchestrator state at the top of the `while` loop after `k`
completed rounds. -/
def goodState (cfg : TrainConfig) (L : LossOracle) (k : ℕ) : LoopState :=
  { itr := List.replicate cfg.numClients k,
    substep := List.replicate cfg.numClients (k * cfg.accSteps),
    lossVar := if k = 0 then 0 else lastLoss cfg L (k - 1),
    trainLossStats := List.replicate cfg.numClients (trainLossUpTo cfg L k),
    aggRounds := aggRoundsUpTo cfg k }

/-- Concrete configuration used by the witnesses: 2 clients, 4 iterations,
2 accumulation steps, aggregation every 2 rounds after a pretraining
threshold of 3, evaluation every 2 rounds, clip bound 1, a scheduler
present, master process. -/
def cfgW : TrainConfig :=
  { numClients := 2, iterations := 4, accSteps := 2, trustFreq := 2,
    pretrainingRounds := 3, evalFreq := 2, gradClip := 1,
    hasScheduler := true, isMaster := true }

/-- Same configuration but with the scheduler choice `none` (main stores
`None` for the scheduler). -/
def cfgN : TrainConfig :=
  { numClients := 2, iterations := 4, accSteps := 2, trustFreq := 2,
    pretrainingRounds := 3, evalFreq := 2, gradClip := 1,
    hasScheduler := false, isMaster := true }

/-- A concrete loss oracle for the witnesses. -/
def lossW : LossOracle := fun i r j => (i : ℚ) + r + j + 1

/- Elementary list lemmas used throughout. -/

lemma foldl_add_div (g : ℕ → ℚ) (c : ℚ) :
    ∀ (l : List ℕ) (a : ℚ),
      l.foldl (fun acc j => acc + g j / c) a = a + (l.map (fun j => g j / c)).sum := by
  intro l
  induction l with
  | nil => intro a; simp
  | cons x xs ih => intro a; simp [ih, add_assoc]

lemma sum_map_div (l : List ℚ) (c : ℚ) :
    (l.map (fun x => x / c)).sum = l.sum / c := by
  induction l with
  | nil => simp
  | cons x xs ih => simp [ih, add_div]

lemma microLoopGrad_eq (K : ℕ) (g : ℕ → ℚ) :
    microLoopGrad K g = ((List.range K).map g).sum / (K : ℚ) := by
  unfold microLoopGrad
  rw [foldl_add_div]
  rw [show ((List.range K).map fun j => g j / (K : ℚ)) =
      (((List.range K).map g).map fun x => x / (K : ℚ)) by simp]
  rw [sum_map_div]
  ring


/- List bookkeeping lemmas for the per-client sweeps. -/

lemma getD_front {α : Type} (j n : ℕ) (a b d : α) :
    (List.replicate j a ++ List.replicate (n + 1) b).getD j d = b := by
  induction j with
  | zero => simp [List.replicate_succ]
  | succ m ih => simpa [List.replicate_succ] using ih

lemma set_step {α : Type} (j n : ℕ) (a b : α) :
    (List.replicate j a ++ List.replicate (n + 1) b).set j a =
      List.replicate (j + 1) a ++ List.replicate n b := by
  induction j with
  | zero => simp [List.replicate_succ]
  | succ m ih =>
    calc (List.replicate (m + 1) a ++ List.replicate (n + 1) b).set (m + 1) a
        = a :: ((List.replicate m a ++ List.replicate (n + 1) b).set m a) := by
          rw [List.replicate_succ a m]; rfl
      _ = a :: (List.replicate (m + 1) a ++ List.replicate n b) := by rw [ih]
      _ = List.replicate (m + 1 + 1) a ++ List.replicate n b := by
          rw [List.replicate_succ a (m + 1)]; rfl

lemma getD_replicate_lt {α : Type} (n i : ℕ) (a d : α) (h : i < n) :
    (List.replicate n a).getD i d = a := by
  induction n generalizing i with
  | zero => omega
  | succ m ih =>
    cases i with
    | zero => simp [List.replicate_succ]
    | succ ii =>
      rw [List.replicate_succ]
      simpa using ih ii (by omega)

lemma getLastD_replicate {α : Type} (n : ℕ) (a d : α) (h : 0 < n) :
    (List.replicate n a).getLastD d = a := by
  induction n generalizing d with
  | zero => omega
  | succ m ih =>
    rw [List.replicate_succ, List.getLastD_cons]
    cases m with
    | zero => simp
    | succ mm => exact ih a (by omega)

lemma runClients_aux (cfg : TrainConfig) (L : LossOracle)
    (hs : cfg.hasScheduler = true) (hK : 0 < cfg.accSteps) (k u : ℕ) :
    ∀ (n j : ℕ) (s : LoopState),
      s.itr = List.replicate j (k + 1) ++ List.replicate n k →
      s.substep = List.replicate j (u + cfg.accSteps) ++ List.replicate n u →
      runClients cfg L (List.range' j n) s =
        Except.ok
          { itr := List.replicate (j + n) (k + 1),
            substep := List.replicate (j + n) (u + cfg.accSteps),
            lossVar := if n = 0 then s.lossVar
                       else L (j + n - 1) k (cfg.accSteps - 1) / (cfg.accSteps : ℚ),
            trainLossStats := s.trainLossStats,
            aggRounds := s.aggRounds } := by
  intro n
  induction n with
  | zero =>
    intro j s hi hsub
    obtain ⟨itr0, sub0, lv0, st0, ag0⟩ := s
    simp only at hi hsub
    subst hi hsub
    simp [List.range', runClients]
  | succ n ih =>
    intro j s hi hsub
    obtain ⟨itr0, sub0, lv0, st0, ag0⟩ := s
    simp only at hi hsub
    subst hi hsub
    rw [List.range'_succ]
    have hstep : clientStepE cfg L j
        ⟨List.replicate j (k + 1) ++ List.replicate (n + 1) k,
         List.replicate j (u + cfg.accSteps) ++ List.replicate (n + 1) u,
         lv0, st0, ag0⟩ =
        Except.ok
          ⟨List.replicate (j + 1) (k + 1) ++ List.replicate n k,
           List.replicate (j + 1) (u + cfg.accSteps) ++ List.replicate n u,
           L j k (cfg.accSteps - 1) / (cfg.accSteps : ℚ), st0, ag0⟩ := by
      unfold clientStepE
      simp only [hs, if_true, getD_front, hK.ne', if_false, set_step]
    have hrec := ih (j + 1)
      ⟨List.replicate (j + 1) (k + 1) ++ List.replicate n k,
       List.replicate (j + 1) (u + cfg.accSteps) ++ List.replicate n u,
       L j k (cfg.accSteps - 1) / (cfg.accSteps : ℚ), st0, ag0⟩ rfl rfl
    have hmain : runClients cfg L (j :: List.range' (j + 1) n)
        ⟨List.replicate j (k + 1) ++ List.replicate (n + 1) k,
         List.replicate j (u + cfg.accSteps) ++ List.replicate (n + 1) u,
         lv0, st0, ag0⟩ =
        runClients cfg L (List.range' (j + 1) n)
          ⟨List.replicate (j + 1) (k + 1) ++ List.replicate n k,
           List.replicate (j + 1) (u + cfg.accSteps) ++ List.replicate n u,
           L j k (cfg.accSteps - 1) / (cfg.accSteps : ℚ), st0, ag0⟩ := by
      rw [runClients, hstep]
    rw [hmain, hrec]
    have e1 : j + 1 + n = j + (n + 1) := by omega
    rw [e1]
    cases n with
    | zero => simp
    | succ nn => simp

lemma replicate_shift {α : Type} (j n : ℕ) (x : α) :
    List.replicate j x ++ List.replicate (n + 1) x =
      List.replicate (j + 1) x ++ List.replicate n x := by
  rw [← List.replicate_add, ← List.replicate_add]
  congr 1
  omega

lemma runEval_aux (cfg : TrainConfig) (r : ℕ) (tl : List ℚ) :
    ∀ (n j : ℕ) (s : LoopState),
      (∀ i, i < j + n → s.itr.getD i 0 = r) →
      s.trainLossStats =
        List.replicate j (tl ++ evalAppend cfg r s.lossVar) ++ List.replicate n tl →
      runEval cfg (List.range' j n) s =
        { s with trainLossStats :=
            List.replicate (j + n) (tl ++ evalAppend cfg r s.lossVar) } := by
  intro n
  induction n with
  | zero =>
    intro j s hitr hstats
    obtain ⟨itr0, sub0, lv0, st0, ag0⟩ := s
    simp only at hstats ⊢
    subst hstats
    simp [List.range', runEval]
  | succ n ih =>
    intro j s hitr hstats
    obtain ⟨itr0, sub0, lv0, st0, ag0⟩ := s
    simp only at hitr hstats ⊢
    subst hstats
    rw [List.range'_succ, runEval]
    have hij : itr0.getD j 0 = r := hitr j (by omega)
    by_cases hcond : (r % cfg.evalFreq = 0 ∨ r = cfg.iterations)
    · by_cases hmaster : cfg.isMaster = true
      · have ha : evalAppend cfg r lv0 = [lv0 * (cfg.accSteps : ℚ)] := by
          simp [evalAppend, isEvalRound, hcond, hmaster]
        rw [ha]
        have hstep : evalClient cfg j
            ⟨itr0, sub0, lv0,
             List.replicate j (tl ++ [lv0 * (cfg.accSteps : ℚ)]) ++ List.replicate (n + 1) tl,
             ag0⟩ =
            ⟨itr0, sub0, lv0,
             List.replicate (j + 1) (tl ++ [lv0 * (cfg.accSteps : ℚ)]) ++ List.replicate n tl,
             ag0⟩ := by
          unfold evalClient
          simp only [hij, hcond, if_true, hmaster, getD_front, set_step]
        rw [hstep]
        have hrec := ih (j + 1)
          ⟨itr0, sub0, lv0,
           List.replicate (j + 1) (tl ++ [lv0 * (cfg.accSteps : ℚ)]) ++ List.replicate n tl,
           ag0⟩ (fun i hi => hitr i (by omega)) (by simp only; rw [ha])
        rw [hrec, ha]
        have e1 : j + 1 + n = j + (n + 1) := by omega
        rw [e1]
      · have ha : evalAppend cfg r lv0 = [] := by
          simp [evalAppend, isEvalRound, hmaster]
        have hshift : List.replicate j (tl ++ evalAppend cfg r lv0) ++ List.replicate (n + 1) tl =
            List.replicate (j + 1) (tl ++ evalAppend cfg r lv0) ++ List.replicate n tl := by
          rw [ha]
          simpa using replicate_shift j n tl
        have hstep : evalClient cfg j
            ⟨itr0, sub0, lv0,
             List.replicate j (tl ++ evalAppend cfg r lv0) ++ List.replicate (n + 1) tl, ag0⟩ =
            ⟨itr0, sub0, lv0,
             List.replicate j (tl ++ evalAppend cfg r lv0) ++ List.replicate (n + 1) tl, ag0⟩ := by
          unfold evalClient
          simp only [hij, hcond, if_true, hmaster]
          simp
        rw [hstep]
        have hrec := ih (j + 1)
          ⟨itr0, sub0, lv0,
           List.replicate j (tl ++ evalAppend cfg r lv0) ++ List.replicate (n + 1) tl, ag0⟩
          (fun i hi => hitr i (by omega)) (by simp only; exact hshift)
        rw [hrec]
        have e1 : j + 1 + n = j + (n + 1) := by omega
        simp [e1]
    · have ha : evalAppend cfg r lv0 = [] := by
        simp only [evalAppend, isEvalRound]
        rw [if_neg]
        intro h
        exact hcond h.1
      have hshift : List.replicate j (tl ++ evalAppend cfg r lv0) ++ List.replicate (n + 1) tl =
          List.replicate (j + 1) (tl ++ evalAppend cfg r lv0) ++ List.replicate n tl := by
        rw [ha]
        simpa using replicate_shift j n tl
      have hstep : evalClient cfg j
          ⟨itr0, sub0, lv0,
           List.replicate j (tl ++ evalAppend cfg r lv0) ++ List.replicate (n + 1) tl, ag0⟩ =
          ⟨itr0, sub0, lv0,
           List.replicate j (tl ++ evalAppend cfg r lv0) ++ List.replicate (n + 1) tl, ag0⟩ := by
        unfold evalClient
        simp only [hij]
        rw [if_neg hcond]
      rw [hstep]
      have hrec := ih (j + 1)
        ⟨itr0, sub0, lv0,
         List.replicate j (tl ++ evalAppend cfg r lv0) ++ List.replicate (n + 1) tl, ag0⟩
        (fun i hi => hitr i (by omega)) (by simp only; exact hshift)
      rw [hrec]
      have e1 : j + 1 + n = j + (n + 1) := by omega
      simp [e1]

lemma aggRoundsUpTo_succ (cfg : TrainConfig) (k : ℕ) :
    aggRoundsUpTo cfg (k + 1) =
      aggRoundsUpTo cfg k ++
        (if (k + 1) % cfg.trustFreq = 0 ∧ cfg.pretrainingRounds - 1 ≤ k + 1 then
          [k + 1] else []) := by
  unfold aggRoundsUpTo
  rw [List.range_succ, List.filterMap_append]
  congr 1
  split <;> simp_all

lemma trainLossUpTo_succ (cfg : TrainConfig) (L : LossOracle) (k : ℕ) :
    trainLossUpTo cfg L (k + 1) =
      trainLossUpTo cfg L k ++ evalAppend cfg (k + 1) (lastLoss cfg L k) := by
  unfold trainLossUpTo evalAppend
  rw [List.range_succ, List.filterMap_append]
  congr 1
  by_cases hg : isEvalRound cfg (k + 1)
  · rw [if_pos hg]
    simp only [List.filterMap_cons, List.filterMap_nil]
    rw [if_pos hg]
  · rw [if_neg hg]
    simp only [List.filterMap_cons, List.filterMap_nil]
    rw [if_neg hg]

lemma roundStepE_good (cfg : TrainConfig) (L : LossOracle)
    (hc : 0 < cfg.numClients) (hs : cfg.hasScheduler = true)
    (hK : 0 < cfg.accSteps) (k : ℕ) :
    roundStepE cfg L (goodState cfg L k) = Except.ok (goodState cfg L (k + 1)) := by
  have hnz : cfg.numClients ≠ 0 := by omega
  have h1 : runClients cfg L (List.range cfg.numClients) (goodState cfg L k) =
      Except.ok
        { itr := List.replicate cfg.numClients (k + 1),
          substep := List.replicate cfg.numClients (k * cfg.accSteps + cfg.accSteps),
          lossVar := lastLoss cfg L k,
          trainLossStats := List.replicate cfg.numClients (trainLossUpTo cfg L k),
          aggRounds := aggRoundsUpTo cfg k } := by
    rw [List.range_eq_range']
    rw [runClients_aux cfg L hs hK k (k * cfg.accSteps) cfg.numClients 0 (goodState cfg L k)
      (by simp [goodState]) (by simp [goodState])]
    simp [goodState, hnz, lastLoss]
  have h2 : aggCheck cfg
      { itr := List.replicate cfg.numClients (k + 1),
        substep := List.replicate cfg.numClients (k * cfg.accSteps + cfg.accSteps),
        lossVar := lastLoss cfg L k,
        trainLossStats := List.replicate cfg.numClients (trainLossUpTo cfg L k),
        aggRounds := aggRoundsUpTo cfg k } =
      { itr := List.replicate cfg.numClients (k + 1),
        substep := List.replicate cfg.numClients (k * cfg.accSteps + cfg.accSteps),
        lossVar := lastLoss cfg L k,
        trainLossStats := List.replicate cfg.numClients (trainLossUpTo cfg L k),
        aggRounds := aggRoundsUpTo cfg (k + 1) } := by
    unfold aggCheck
    simp only [getLastD_replicate cfg.numClients (k + 1) 0 hc]
    rw [aggRoundsUpTo_succ]
    by_cases hg : (k + 1) % cfg.trustFreq = 0 ∧ cfg.pretrainingRounds - 1 ≤ k + 1
    · rw [if_pos hg, if_pos hg]
    · rw [if_neg hg, if_neg hg]
      simp
  have h3 : runEval cfg (List.range cfg.numClients)
      { itr := List.replicate cfg.numClients (k + 1),
        substep := List.replicate cfg.numClients (k * cfg.accSteps + cfg.accSteps),
        lossVar := lastLoss cfg L k,
        trainLossStats := List.replicate cfg.numClients (trainLossUpTo cfg L k),
        aggRounds := aggRoundsUpTo cfg (k + 1) } = goodState cfg L (k + 1) := by
    rw [List.range_eq_range']
    rw [runEval_aux cfg (k + 1) (trainLossUpTo cfg L k) cfg.numClients 0
      ⟨List.replicate cfg.numClients (k + 1),
       List.replicate cfg.numClients (k * cfg.accSteps + cfg.accSteps),
       lastLoss cfg L k,
       List.replicate cfg.numClients (trainLossUpTo cfg L k),
       aggRoundsUpTo cfg (k + 1)⟩
      (fun i hi => getD_replicate_lt cfg.numClients i (k + 1) 0 (by omega))
      (by simp)]
    simp only [goodState]
    rw [trainLossUpTo_succ cfg L k]
    have e2 : k * cfg.accSteps + cfg.accSteps = (k + 1) * cfg.accSteps := by ring
    simp [e2]
  unfold roundStepE
  rw [h1]
  show Except.ok (runEval cfg (List.range cfg.numClients)
    (aggCheck cfg
      { itr := List.replicate cfg.numClients (k + 1),
        substep := List.replicate cfg.numClients (k * cfg.accSteps + cfg.accSteps),
        lossVar := lastLoss cfg L k,
        trainLossStats := List.replicate cfg.numClients (trainLossUpTo cfg L k),
        aggRounds := aggRoundsUpTo cfg k })) = Except.ok (goodState cfg L (k + 1))
  rw [h2, h3]

lemma initState_good (cfg : TrainConfig) (L : LossOracle) :
    initState cfg = goodState cfg L 0 := by
  simp [initState, goodState, trainLossUpTo, aggRoundsUpTo]

lemma roundsIterE_good (cfg : TrainConfig) (L : LossOracle)
    (hc : 0 < cfg.numClients) (hs : cfg.hasScheduler = true)
    (hK : 0 < cfg.accSteps) :
    ∀ (j k : ℕ),
      roundsIterE cfg L j (goodState cfg L k) = Except.ok (goodState cfg L (k + j)) := by
  intro j
  induction j with
  | zero => intro k; rfl
  | succ j ih =>
    intro k
    rw [roundsIterE, roundStepE_good cfg L hc hs hK k]
    show roundsIterE cfg L j (goodState cfg L (k + 1)) = _
    rw [ih (k + 1), show k + 1 + j = k + (j + 1) from by omega]

lemma trainLoopFuel_done (cfg : TrainConfig) (L : LossOracle)
    (hc : 0 < cfg.numClients) (hs : cfg.hasScheduler = true)
    (hK : 0 < cfg.accSteps) :
    ∀ (j k : ℕ), k + j = cfg.iterations →
      trainLoopFuel cfg L (j + 1) (goodState cfg L k) =
        Except.ok (some (goodState cfg L cfg.iterations)) := by
  intro j
  induction j with
  | zero =>
    intro k hk
    rw [trainLoopFuel]
    have hg : (goodState cfg L k).itr.getLastD 0 = k := by
      simp only [goodState]
      exact getLastD_replicate cfg.numClients k 0 hc
    rw [hg, if_neg (by omega)]
    have : k = cfg.iterations := by omega
    rw [this]
  | succ j ih =>
    intro k hk
    rw [trainLoopFuel]
    have hg : (goodState cfg L k).itr.getLastD 0 = k := by
      simp only [goodState]
      exact getLastD_replicate cfg.numClients k 0 hc
    rw [hg, if_pos (by omega), roundStepE_good cfg L hc hs hK k]
    show trainLoopFuel cfg L (j + 1) (goodState cfg L (k + 1)) = _
    exact ih (k + 1) (by omega)

lemma trainLoopFuel_spin (cfg : TrainConfig) (L : LossOracle)
    (hc : 0 < cfg.numClients) (hs : cfg.hasScheduler = true)
    (hK : 0 < cfg.accSteps) :
    ∀ (j k : ℕ), k + j ≤ cfg.iterations →
      trainLoopFuel cfg L j (goodState cfg L k) = Except.ok none := by
  intro j
  induction j with
  | zero => intro k hk; rfl
  | succ j ih =>
    intro k hk
    rw [trainLoopFuel]
    have hg : (goodState cfg L k).itr.getLastD 0 = k := by
      simp only [goodState]
      exact getLastD_replicate cfg.numClients k 0 hc
    rw [hg, if_pos (by omega), roundStepE_good cfg L hc hs hK k]
    show trainLoopFuel cfg L j (goodState cfg L (k + 1)) = _
    exact ih (k + 1) (by omega)

lemma train_lora_run (cfg : TrainConfig) (L : LossOracle)
    (hc : 0 < cfg.numClients) (hs : cfg.hasScheduler = true)
    (hK : 0 < cfg.accSteps) :
    train_lora cfg L = Except.ok (some (goodState cfg L cfg.iterations)) := by
  unfold train_lora
  rw [initState_good cfg L]
  exact trainLoopFuel_done cfg L hc hs hK cfg.iterations 0 (by omega)

lemma mem_aggRoundsUpTo (cfg : TrainConfig) (k r : ℕ) :
    r ∈ aggRoundsUpTo cfg k ↔
      (1 ≤ r ∧ r ≤ k ∧ r % cfg.trustFreq = 0 ∧ cfg.pretrainingRounds - 1 ≤ r) := by
  unfold aggRoundsUpTo
  rw [List.mem_filterMap]
  constructor
  · rintro ⟨j, hj, hif⟩
    rw [List.mem_range] at hj
    by_cases hg : (j + 1) % cfg.trustFreq = 0 ∧ cfg.pretrainingRounds - 1 ≤ j + 1
    · rw [if_pos hg] at hif
      have : j + 1 = r := by injection hif
      subst this
      exact ⟨by omega, by omega, hg.1, hg.2⟩
    · rw [if_neg hg] at hif
      cases hif
  · rintro ⟨h1, h2, h3, h4⟩
    refine ⟨r - 1, by rw [List.mem_range]; omega, ?_⟩
    have e : r - 1 + 1 = r := by omega
    rw [e, if_pos ⟨h3, h4⟩]

/- ----------------------------------------------------------------------
   Claim theorems.
   ---------------------------------------------------------------------- -/

/-- Claim C1: for every run with positive client count, accumulation steps,
and aggregation frequency (a zero frequency would raise ZeroDivisionError in
the source), the Trust Aggregator is invoked at the end of round r exactly
when `r % trust_freq = 0` and `r >= pretraining_rounds - 1`, where r is the
last client's iteration counter after all clients completed the round, and
at no other rounds. -/
theorem aggregation_trigger_exact (cfg : TrainConfig) (L : LossOracle)
    (hc : 0 < cfg.numClients) (hs : cfg.hasScheduler = true)
    (hK : 0 < cfg.accSteps) (_hf : 0 < cfg.trustFreq) (_he : 0 < cfg.evalFreq)
    (r : ℕ) :
    train_lora cfg L = Except.ok (some (goodState cfg L cfg.iterations)) ∧
    (r ∈ (goodState cfg L cfg.iterations).aggRounds ↔
      (1 ≤ r ∧ r ≤ cfg.iterations ∧ r % cfg.trustFreq = 0 ∧
        cfg.pretrainingRounds - 1 ≤ r)) := by
  refine ⟨train_lora_run cfg L hc hs hK, ?_⟩
  simp only [goodState]
  exact mem_aggRoundsUpTo cfg cfg.iterations r

theorem aggregation_trigger_exact_witness :
    train_lora cfgW lossW = Except.ok (some (goodState cfgW lossW cfgW.iterations)) ∧
    (2 ∈ (goodState cfgW lossW cfgW.iterations).aggRounds ↔
      (1 ≤ 2 ∧ 2 ≤ cfgW.iterations ∧ 2 % cfgW.trustFreq = 0 ∧
        cfgW.pretrainingRounds - 1 ≤ 2)) :=
  aggregation_trigger_exact cfgW lossW (by decide) rfl (by decide) (by decide)
    (by decide) 2

/-- Claim C2 (spec-modelled, `aggregate` is in src/optim/strategies.py which
is not among the sources): for non-negative trust scores with positive sum,
the normalized weight row over source clients (self-weight included) is
non-negative and sums exactly to 1 (exact over the rationals, which the
floating-point tolerance of the claim relaxes), so the new parameters formed
by `aggregateParams` are a convex combination of all clients' parameters. -/
theorem trust_weights_convex (scores : List ℚ)
    (h0 : listNonneg scores) (hp : 0 < scores.sum) :
    listNonneg (trustRow scores) ∧ (trustRow scores).sum = 1 ∧
      (trustRow scores).length = scores.length := by
  refine ⟨?_, ?_, by simp [trustRow]⟩
  · intro x hx
    rw [trustRow, List.mem_map] at hx
    obtain ⟨s, hs, rfl⟩ := hx
    exact div_nonneg (h0 s hs) (le_of_lt hp)
  · rw [trustRow, sum_map_div, div_self (ne_of_gt hp)]

theorem trust_weights_convex_witness :
    listNonneg (trustRow [1, 2, 1]) ∧ (trustRow [1, 2, 1]).sum = 1 ∧
      (trustRow [1, 2, 1]).length = ([1, 2, 1] : List ℚ).length :=
  trust_weights_convex [1, 2, 1]
    (by intro x hx; simp at hx; rcases hx with rfl | rfl | rfl <;> norm_num)
    (by norm_num [List.sum_cons])

/-- Claim C3: in every round each client performs exactly `acc_steps`
microsteps (the substep counter grows by `acc_steps` per client per round),
each microstep's loss is divided by `acc_steps` before backward, and the
accumulated gradient reaching the optimizer step equals the mean of the
per-batch gradients (exact over the rationals; floating-point associativity
is the claim's stated slack). -/
theorem grad_accum_mean (cfg : TrainConfig) (L : LossOracle) (g : ℕ → ℚ)
    (hc : 0 < cfg.numClients) (hs : cfg.hasScheduler = true)
    (hK : 0 < cfg.accSteps) (_hf : 0 < cfg.trustFreq) (_he : 0 < cfg.evalFreq)
    (k : ℕ) (_hk : k ≤ cfg.iterations) :
    microLoopGrad cfg.accSteps g = listMean ((List.range cfg.accSteps).map g) ∧
    ((List.range cfg.accSteps).map g).length = cfg.accSteps ∧
    Except.map LoopState.substep (roundsIterE cfg L k (initState cfg)) =
      Except.ok (List.replicate cfg.numClients (k * cfg.accSteps)) := by
  refine ⟨?_, by simp, ?_⟩
  · rw [microLoopGrad_eq, listMean]
    simp
  · rw [initState_good cfg L, roundsIterE_good cfg L hc hs hK k 0]
    simp [goodState, Except.map]

theorem grad_accum_mean_witness :
    microLoopGrad cfgW.accSteps (fun j => (j : ℚ) + 5) =
      listMean ((List.range cfgW.accSteps).map (fun j => (j : ℚ) + 5)) ∧
    ((List.range cfgW.accSteps).map (fun j => (j : ℚ) + 5)).length = cfgW.accSteps ∧
    Except.map LoopState.substep (roundsIterE cfgW lossW 2 (initState cfgW)) =
      Except.ok (List.replicate cfgW.numClients (2 * cfgW.accSteps)) :=
  grad_accum_mean cfgW lossW (fun j => (j : ℚ) + 5) (by decide) rfl (by decide)
    (by decide) (by decide) 2 (by decide)

/-- Claim C4: for at least one client, the loop runs exactly `iterations`
rounds — with fuel for fewer guard evaluations it is still running, and with
`iterations + 1` guard evaluations it exits with all round counters equal to
`iterations` — and returns the accumulated per-client metric series. -/
theorem train_loop_terminates (cfg : TrainConfig) (L : LossOracle)
    (hc : 0 < cfg.numClients) (hs : cfg.hasScheduler = true)
    (hK : 0 < cfg.accSteps) (_hf : 0 < cfg.trustFreq) (_he : 0 < cfg.evalFreq)
    (f : ℕ) (hf : f ≤ cfg.iterations) :
    train_lora cfg L = Except.ok (some (goodState cfg L cfg.iterations)) ∧
    (goodState cfg L cfg.iterations).itr =
      List.replicate cfg.numClients cfg.iterations ∧
    (goodState cfg L cfg.iterations).trainLossStats =
      List.replicate cfg.numClients (trainLossUpTo cfg L cfg.iterations) ∧
    trainLoopFuel cfg L f (initState cfg) = Except.ok none := by
  refine ⟨train_lora_run cfg L hc hs hK, rfl, rfl, ?_⟩
  rw [initState_good cfg L]
  exact trainLoopFuel_spin cfg L hc hs hK f 0 (by omega)

theorem train_loop_terminates_witness :
    train_lora cfgW lossW = Except.ok (some (goodState cfgW lossW cfgW.iterations)) ∧
    (goodState cfgW lossW cfgW.iterations).itr =
      List.replicate cfgW.numClients cfgW.iterations ∧
    (goodState cfgW lossW cfgW.iterations).trainLossStats =
      List.replicate cfgW.numClients (trainLossUpTo cfgW lossW cfgW.iterations) ∧
    trainLoopFuel cfgW lossW 4 (initState cfgW) = Except.ok none :=
  train_loop_terminates cfgW lossW (by decide) rfl (by decide) (by decide)
    (by decide) 4 (by decide)

/-- Claim C5, counterexample: the claim says the model is back in training
mode on every exit path from the evaluation block, including when evaluation
raises; but the block (src/optim/lora.py 96-130) has no try/finally, so on
the error path the model is left in inference mode, not training mode. -/
theorem eval_mode_not_restored_on_error :
    (evalBlockMode (Except.error ())).1 = Mode.inference ∧
    Mode.inference ≠ Mode.train :=
  ⟨rfl, by decide⟩

/-- Claim C5 as amended: when the Evaluator completes normally the model is
restored to training mode by the trailing `model.train()`; when it raises,
the exception propagates with the model left in inference mode. -/
theorem eval_mode_restored_on_success :
    ∀ (v : ℚ × ℚ × ℚ) (e : Unit),
      (evalBlockMode (Except.ok v)).1 = Mode.train ∧
      (evalBlockMode (Except.error e)).1 = Mode.inference := by
  intro v e
  exact ⟨rfl, rfl⟩

/-- Claim C6: the clients' iteration counters advance in lockstep — at the
top of the `while` loop after any number `k` of completed rounds (up to the
run's total), every entry of `itr` equals `k`, the number of completed
rounds. -/
theorem clients_lockstep (cfg : TrainConfig) (L : LossOracle)
    (hc : 0 < cfg.numClients) (hs : cfg.hasScheduler = true)
    (hK : 0 < cfg.accSteps) (_hf : 0 < cfg.trustFreq) (_he : 0 < cfg.evalFreq)
    (k : ℕ) (_hk : k ≤ cfg.iterations) :
    roundsIterE cfg L k (initState cfg) = Except.ok (goodState cfg L k) ∧
    (goodState cfg L k).itr = List.replicate cfg.numClients k ∧
    (goodState cfg L k).itr.all (fun x => x == k) = true := by
  refine ⟨?_, rfl, ?_⟩
  · rw [initState_good cfg L]
    simpa using roundsIterE_good cfg L hc hs hK k 0
  · simp only [goodState, List.all_eq_true]
    intro x hx
    simp [List.eq_of_mem_replicate hx]

theorem clients_lockstep_witness :
    roundsIterE cfgW lossW 3 (initState cfgW) = Except.ok (goodState cfgW lossW 3) ∧
    (goodState cfgW lossW 3).itr = List.replicate cfgW.numClients 3 ∧
    (goodState cfgW lossW 3).itr.all (fun x => x == 3) = true :=
  clients_lockstep cfgW lossW (by decide) rfl (by decide) (by decide)
    (by decide) 3 (by decide)

/-- Claim C7: when the checkpoint directory exists and already contains a
completed `summary.json`, the run exits with status 0 before any training
round, leaving the summary file's content unchanged. -/
theorem completed_run_early_exit (fs : CkptState) (iterations : ℕ)
    (out : String) (hd : fs.dirExists = true) (hsum : fs.summaryIsFile = true) :
    mainRun fs iterations out =
      { exitCode := 0, rounds := 0, summaryAfter := fs.summaryContent } := by
  unfold mainRun
  rw [hd]
  simp [hsum]

theorem completed_run_early_exit_witness :
    mainRun ⟨true, true, some ("done")⟩ 7 ("new") =
      { exitCode := 0, rounds := 0, summaryAfter := some ("done") } :=
  completed_run_early_exit ⟨true, true, some ("done")⟩ 7 ("new") rfl rfl

/-- Claim C8: the gradient-clip stage applies the norm bound if and only if
the configured `grad_clip` is nonzero — a configured 0.0 leaves the
accumulated gradient entirely untouched (no bound, not a bound of zero),
while a positive bound caps the gradient norm at `grad_clip`. -/
theorem grad_clip_zero_disables (cfg : TrainConfig) (g : ℕ → ℚ) :
    (cfg.gradClip = 0 → clientGrad cfg g = microLoopGrad cfg.accSteps g) ∧
    (cfg.gradClip ≠ 0 →
      clientGrad cfg g = clipGradNorm cfg.gradClip (microLoopGrad cfg.accSteps g)) ∧
    (0 < cfg.gradClip → |clientGrad cfg g| ≤ cfg.gradClip) := by
  refine ⟨?_, ?_, ?_⟩
  · intro h
    simp [clientGrad, clipStage, h]
  · intro h
    simp [clientGrad, clipStage, h]
  · intro h
    have hne : cfg.gradClip ≠ 0 := ne_of_gt h
    unfold clientGrad clipStage clipGradNorm
    rw [if_pos hne]
    by_cases hle : |microLoopGrad cfg.accSteps g| ≤ cfg.gradClip
    · rw [if_pos hle]
      exact hle
    · rw [if_neg hle]
      have hGpos : 0 < |microLoopGrad cfg.accSteps g| :=
        lt_trans h (lt_of_not_le hle)
      rw [abs_mul, abs_div, abs_abs, abs_of_pos h,
        div_mul_cancel₀ _ (ne_of_gt hGpos)]

theorem grad_clip_zero_disables_witness :
    |clientGrad cfgW (fun j => (j : ℚ) + 5)| ≤ cfgW.gradClip :=
  (grad_clip_zero_disables cfgW (fun j => (j : ℚ) + 5)).2.2 (by norm_num [cfgW])

/-- Claim C9: at every evaluation event the train_loss recorded for any
client `i` is the detached Python `loss` variable times `acc_steps` — that
variable holds the final-microstep loss of the last client (index
`num_clients - 1`) of the round, divided by `acc_steps`, so the recorded
value is that client's raw final-microstep loss and every client evaluated
in the same round records the identical series. -/
theorem train_loss_last_client (cfg : TrainConfig) (L : LossOracle)
    (hc : 0 < cfg.numClients) (hs : cfg.hasScheduler = true)
    (hK : 0 < cfg.accSteps) (_hf : 0 < cfg.trustFreq) (_he : 0 < cfg.evalFreq)
    (_hM : cfg.isMaster = true)
    (i : ℕ) (hi : i < cfg.numClients) (j : ℕ) :
    train_lora cfg L = Except.ok (some (goodState cfg L cfg.iterations)) ∧
    (goodState cfg L cfg.iterations).trainLossStats.getD i [] =
      trainLossUpTo cfg L cfg.iterations ∧
    lastLoss cfg L j * (cfg.accSteps : ℚ) =
      L (cfg.numClients - 1) j (cfg.accSteps - 1) := by
  refine ⟨train_lora_run cfg L hc hs hK, ?_, ?_⟩
  · simp only [goodState]
    exact getD_replicate_lt cfg.numClients i _ [] hi
  · rw [lastLoss, div_mul_cancel₀]
    exact Nat.cast_ne_zero.mpr (by omega)

theorem train_loss_last_client_witness :
    train_lora cfgW lossW = Except.ok (some (goodState cfgW lossW cfgW.iterations)) ∧
    (goodState cfgW lossW cfgW.iterations).trainLossStats.getD 0 [] =
      trainLossUpTo cfgW lossW cfgW.iterations ∧
    lastLoss cfgW lossW 1 * (cfgW.accSteps : ℚ) =
      lossW (cfgW.numClients - 1) 1 (cfgW.accSteps - 1) :=
  train_loss_last_client cfgW lossW (by decide) rfl (by decide) (by decide)
    (by decide) rfl 0 (by decide) 1

/-- Claim C10: main accepts the scheduler choice `none` and stores `None` as
each client's scheduler, but the per-round `scheduler.step()` in train_lora
is unguarded, so a run with at least one client and one iteration raises at
the first client's first schedule step — error payload (client 0, round 0) —
before completing any round. -/
theorem scheduler_none_raises (cfg : TrainConfig) (L : LossOracle)
    (hc : 0 < cfg.numClients) (hs : cfg.hasScheduler = false)
    (hit : 0 < cfg.iterations) :
    makeScheduler ("none") = Except.ok none ∧
    train_lora cfg L = Except.error (0, 0) := by
  refine ⟨rfl, ?_⟩
  obtain ⟨mm, hm⟩ : ∃ mm, cfg.numClients = mm + 1 :=
    ⟨cfg.numClients - 1, by omega⟩
  have hg : (initState cfg).itr.getLastD 0 = 0 := by
    simp only [initState]
    exact getLastD_replicate cfg.numClients 0 0 hc
  have hfirst : clientStepE cfg L 0 (initState cfg) = Except.error (0, 0) := by
    unfold clientStepE
    rw [hs]
    simp [initState, hm, List.replicate_succ]
  have hclients : runClients cfg L (List.range cfg.numClients) (initState cfg) =
      Except.error (0, 0) := by
    rw [hm, List.range_succ_eq_map, runClients, hfirst]
  have hround : roundStepE cfg L (initState cfg) = Except.error (0, 0) := by
    unfold roundStepE
    rw [hclients]
  unfold train_lora
  rw [trainLoopFuel, hg, if_pos hit, hround]

theorem scheduler_none_raises_witness :
    makeScheduler ("none") = Except.ok none ∧
    train_lora cfgN lossW = Except.error (0, 0) :=
  scheduler_none_raises cfgN lossW (by decide) rfl (by decide)
